import Mathlib

/-!
Shallow embedding of `src/main.py` (image_frames_to_video): a program that
turns a directory of still images into a video.  Pure Python functions become
Lean functions; the external OpenCV services (decode, color conversion,
resample, video sink) are modelled explicitly where the program's observable
behaviour depends on them.
-/

/-- The shape of a decoded raster, as numpy reports it: a grayscale image is a
2-D array `(h, w)`, a color image is a 3-D array `(h, w, c)`. -/
inductive Shape where
  | gray (h w : Nat)
  | color (h w c : Nat)
deriving DecidableEq, Repr

/-- An in-memory image: its numpy shape, its flattened pixel data, and a
buffer identity `buf` used to model aliasing (two images sharing `buf` are
views of the same mutable numpy buffer; `.copy()` and library calls allocate
a new buffer). -/
structure Image where
  shape : Shape
  data : List Nat
  buf : Nat
deriving DecidableEq, Repr

/-- `img.shape[:2]`, i.e. `(height, width)` for both 2-D and 3-D rasters. -/
def Shape.dims : Shape → Nat × Nat
  | Shape.gray h w => (h, w)
  | Shape.color h w _ => (h, w)

def Image.height (img : Image) : Nat := img.shape.dims.1

def Image.width (img : Image) : Nat := img.shape.dims.2

/-- `img.copy()` (numpy): same shape and pixel content, freshly allocated
buffer. -/
def Image.copy (img : Image) (fresh : Nat) : Image :=
  { img with buf := fresh }

/-- External `cv2.resize(img, (w, h), interpolation=cv2.INTER_LINEAR)`,
modelled abstractly: the program only relies on the output having the
requested dimensions and living in a freshly allocated buffer.  Pixel values
of the resampled image are a placeholder index sampling; no claim inspects
them. -/
def cv2_resize (img : Image) (w h : Nat) (fresh : Nat) : Image :=
  { shape :=
      match img.shape with
      | Shape.gray _ _ => Shape.gray h w
      | Shape.color _ _ c => Shape.color h w c,
    data := (List.range (h * w)).map (fun i => img.data.getD i 0),
    buf := fresh }

/-- Errors raised by the program (`raise ValueError(...)` and the implicit
`IndexError` of `img_array[0]` on an empty list), named after the error
kinds of the design. -/
inductive Err where
  | precondition
  | noInputFiles
  | noDecodableImages
  | sinkOpen
  | writeFailure
deriving DecidableEq, Repr

/-- The second loop of `resize` (src/main.py lines 26-32): every image whose
`(height, width)` differs from the target is resampled, the others are
copied; each iteration allocates a new buffer (`fresh`, `fresh+1`, ...). -/
def resizeAll (target : Nat × Nat) (fresh : Nat) : List Image → List Image
  | [] => []
  | img :: rest =>
    (if (img.height, img.width) ≠ target then cv2_resize img target.2 target.1 fresh
     else Image.copy img fresh) :: resizeAll target (fresh + 1) rest

/-- `resize(img_array, align_mode)` (src/main.py lines 5-34): find the
element-wise min (mode `"smallest"`) or max (any other mode) of the heights
and widths, resample or copy every image to that target, and return the new
list together with the target as a `(width, height)` pair.  On an empty list,
`img_array[0]` raises (the design calls this the precondition error). -/
def resize (img_array : List Image) (align_mode : String) (fresh : Nat) :
    Except Err (List Image × (Nat × Nat)) :=
  match img_array with
  | [] => Except.error Err.precondition
  | first_img :: rest =>
    let hw := rest.foldl
      (fun p img =>
        if align_mode = "smallest" then (min p.1 img.height, min p.2 img.width)
        else (max p.1 img.height, max p.2 img.width))
      (first_img.height, first_img.width)
    Except.ok (resizeAll hw fresh img_array, (hw.2, hw.1))

deriving instance DecidableEq for Except

/-- `re.split('([0-9]+)', s)` (src/main.py line 41), modelled from the left:
the result alternates (possibly empty) digit-free runs with maximal nonempty
digit runs, and always begins and ends with a digit-free run. -/
def splitRuns : List Char → List (List Char)
  | [] => [[]]
  | c :: cs =>
    let r := splitRuns cs
    if c.isDigit then
      match r with
      | [] :: d :: rest => [] :: (c :: d) :: rest
      | _ => [] :: [c] :: r
    else
      match r with
      | t :: rest => (c :: t) :: rest
      | [] => [[c]]

/-- Python `str.isdigit()` restricted to a single character: true on the
Unicode digit characters, which is WIDER than the ASCII `[0-9]` class the
split pattern uses.  The model covers the ASCII digits together with the
Arabic-Indic decimal digits `٠`-`٩` (U+0660-U+0669); Python's `isdigit`
is true on further Unicode characters — every other Nd decimal digit
behaves like U+0660-U+0669 here, and characters such as superscript `²`
are digits on which `int()` then raises `ValueError`, behaviour a total
key function cannot represent — so those stay outside this model. -/
def pyIsDigit (c : Char) : Bool :=
  c.isDigit || (decide (0x660 ≤ c.toNat) && decide (c.toNat ≤ 0x669))

/-- The decimal value of a digit character as `int()` reads it: `0`-`9`
for ASCII, and the corresponding value for the covered Arabic-Indic
digits. -/
def pyDigitVal (c : Char) : Nat :=
  if 0x660 ≤ c.toNat ∧ c.toNat ≤ 0x669 then c.toNat - 0x660 else c.toNat - 48

/-- `int(text)` on a string of decimal-digit characters: the positional
base-10 value of the characters' digit values. -/
def digitsVal (l : List Char) : Nat :=
  l.foldl (fun n c => n * 10 + pyDigitVal c) 0

/-- A token of the natural-sort key: Python puts plain lowercased strings and
ints in the same key list. -/
inductive Tok where
  | str (s : List Char)
  | num (n : Nat)
deriving DecidableEq, Repr

/-- `int(text) if text.isdigit() else text.lower()` (src/main.py line 40):
`str.isdigit` is true exactly on nonempty strings of Unicode digit
characters.  Note the mismatch with the splitter: `re.split('([0-9]+)', s)`
only carves out ASCII digit runs, so a non-ASCII digit lands inside a
"text" segment, where `text.isdigit()` is nevertheless true and the
segment is converted to an integer. -/
def tokOf (t : List Char) : Tok :=
  if t ≠ [] ∧ t.all pyIsDigit then Tok.num (digitsVal t)
  else Tok.str (t.map Char.toLower)

/-- `natural_sort_key(s)` (src/main.py lines 37-41). -/
def natural_sort_key (s : List Char) : List Tok :=
  (splitRuns s).map tokOf

/-- Python string comparison: lexicographic by code point. -/
def strCmp : List Char → List Char → Ordering
  | [], [] => Ordering.eq
  | [], _ :: _ => Ordering.lt
  | _ :: _, [] => Ordering.gt
  | c :: cs, d :: ds =>
    if c < d then Ordering.lt else if d < c then Ordering.gt else strCmp cs ds

/-- Python integer comparison. -/
def natCmp (m n : Nat) : Ordering :=
  if m < n then Ordering.lt else if n < m then Ordering.gt else Ordering.eq

/-- Comparison of two key tokens; `none` models the `TypeError` Python raises
when `<` is applied to an int and a str. -/
def tokCmp : Tok → Tok → Option Ordering
  | Tok.str s, Tok.str t => some (strCmp s t)
  | Tok.num m, Tok.num n => some (natCmp m n)
  | _, _ => none

/-- Python list comparison (as used by `list.sort(key=...)` on the keys):
lexicographic, the first non-equal pair of elements decides, and a strict
prefix-ordered shorter list sorts first. -/
def keyCmp : List Tok → List Tok → Option Ordering
  | [], [] => some Ordering.eq
  | [], _ :: _ => some Ordering.lt
  | _ :: _, [] => some Ordering.gt
  | a :: as, b :: bs =>
    match tokCmp a b with
    | none => none
    | some Ordering.eq => keyCmp as bs
    | some o => some o

/-- One step of a stable insertion sort: `x` goes after every element whose
key is ≤ its own. -/
def pyInsert (le : α → α → Bool) (x : α) : List α → List α
  | [] => [x]
  | y :: ys => if le y x then y :: pyInsert le x ys else x :: y :: ys

/-- `list.sort(key=...)` modelled as a stable insertion sort; Python's sort
is stable, and any two stable sorts agree on keys admitting a total order. -/
def pySort (le : α → α → Bool) (l : List α) : List α :=
  l.foldl (fun acc x => pyInsert le x acc) []

/-- `a` sorts no later than `b` under `natural_sort_key`. -/
def fileNameLe (a b : String) : Bool :=
  match keyCmp (natural_sort_key a.toList) (natural_sort_key b.toList) with
  | some Ordering.gt => false
  | _ => true

/-- `text.lower()` on a list of characters. -/
def lowerL (s : List Char) : List Char := s.map Char.toLower

/-- `s.endswith(suf)` on lists of characters. -/
def endsWithL (s suf : List Char) : Bool :=
  decide (s.drop (s.length - suf.length) = suf)

/-- `s.rstrip(c)` for a single strip character. -/
def pyRstrip (s : List Char) (c : Char) : List Char :=
  (s.reverse.dropWhile (fun x => x = c)).reverse

/-- `cv2.cvtColor(img, cv2.COLOR_GRAY2BGR)` on the flattened data: each
gray value becomes an equal B,G,R triple (external library, modelled). -/
def gray2bgrData : List Nat → List Nat
  | [] => []
  | v :: rest => v :: v :: v :: gray2bgrData rest

/-- `cv2.cvtColor(img, cv2.COLOR_BGRA2BGR)` on the flattened data: every
fourth (alpha) sample is dropped (external library, modelled). -/
def dropAlpha : List Nat → List Nat
  | b :: g :: r :: _ :: rest => b :: g :: r :: dropAlpha rest
  | l => l

/-- Color canonicalization (src/main.py lines 74-78): a 2-D (grayscale)
raster is converted to 3-channel, a 4-channel raster loses its alpha
channel, anything else passes through unchanged. -/
def canonicalizeColor (img : Image) : Image :=
  match img.shape with
  | Shape.gray h w => ⟨Shape.color h w 3, gray2bgrData img.data, img.buf⟩
  | Shape.color h w c =>
    if c = 4 then ⟨Shape.color h w 3, dropAlpha img.data, img.buf⟩ else img

/-- A directory entry: its filename and what `cv2.imread` returns for it
(`none` models a file that fails to decode, where `imread` returns `None`). -/
structure FileEntry where
  name : List Char
  decoded : Option Image
deriving DecidableEq, Repr

/-- `supported_formats = ['*.jpg', '*.jpeg', '*.png', '*.bmp']`
(src/main.py line 51). -/
def supported_formats : List (List Char) :=
  [['*', '.', 'j', 'p', 'g'], ['*', '.', 'j', 'p', 'e', 'g'],
   ['*', '.', 'p', 'n', 'g'], ['*', '.', 'b', 'm', 'p']]

/-- `glob.glob(path + '/' + fmt)` (src/main.py line 57), modelled over the
directory listing: the entries whose name ends with the pattern's literal
tail after the `*` wildcard, in listing order.  The match is case-sensitive,
as `glob` is on a case-sensitive filesystem.  (The common directory part of
the returned paths and `glob`'s exclusion of names whose leading character
is a dot are not modelled; no claim depends on them.) -/
def globMatch (dir : List FileEntry) (fmt : List Char) : List FileEntry :=
  dir.filter (fun f => endsWithL f.name (fmt.drop 1))

/-- The discovery loop (src/main.py lines 55-57): one `glob` per supported
format, results concatenated. -/
def image_files (dir : List FileEntry) : List FileEntry :=
  (supported_formats.map (globMatch dir)).flatten

/-- Sort-key order on directory entries, `key=natural_sort_key`
(src/main.py line 63). -/
def entryLe (a b : FileEntry) : Bool :=
  match keyCmp (natural_sort_key a.name) (natural_sort_key b.name) with
  | some Ordering.gt => false
  | _ => true

/-- The decode loop (src/main.py lines 67-79): each file is read; a failed
read logs a warning with the filename and is skipped, a successful read is
color-canonicalized and appended.  Returns (warnings, images), each in file
order. -/
def decodeAll : List FileEntry → List (List Char) × List Image
  | [] => ([], [])
  | f :: rest =>
    let r := decodeAll rest
    match f.decoded with
    | none => (f.name :: r.1, r.2)
    | some img => (r.1, canonicalizeColor img :: r.2)

/-- The behaviour of the external video sink for one run: whether
`VideoWriter` opens, and whether the i-th `out.write` call succeeds
(a `false` models an exception raised partway through the write loop). -/
structure SinkBehavior where
  openOk : Bool
  writeOk : Nat → Bool

/-- Observable events of one `images_to_video` run. -/
structure RunLog where
  warnings : List (List Char)
  decodedCount : Nat
  sinkOpened : Bool
  written : List Image
  releases : Nat
deriving DecidableEq, Repr

/-- The write loop inside `try:` (src/main.py lines 99-100): frames are
written in order until one write raises; the list of frames actually
written is returned. -/
def writeLoop (writeOk : Nat → Bool) : List Image → Nat → Except Err Unit × List Image
  | [], _ => (Except.ok (), [])
  | img :: rest, i =>
    if writeOk i then
      match writeLoop writeOk rest (i + 1) with
      | (res, written) => (res, img :: written)
    else (Except.error Err.writeFailure, [])

/-- `images_to_video(path, ...)` (src/main.py lines 43-102) over a modelled
directory listing and sink: discover supported files, raise if none, sort
naturally, decode (skipping failures with a warning), raise if nothing
decoded, normalize with policy `'largest'`, open the sink (raise if that
fails, before any write), then write all frames under `try/finally`, the
`finally` releasing the sink exactly once. -/
def images_to_video (dir : List FileEntry) (sink : SinkBehavior) (fresh : Nat) :
    Except Err Unit × RunLog :=
  if image_files dir = [] then
    (Except.error Err.noInputFiles, ⟨[], 0, false, [], 0⟩)
  else
    match decodeAll (pySort entryLe (image_files dir)) with
    | (warnings, img_array) =>
      if img_array = [] then
        (Except.error Err.noDecodableImages, ⟨warnings, 0, false, [], 0⟩)
      else
        match resize img_array "largest" fresh with
        | Except.error e => (Except.error e, ⟨warnings, img_array.length, false, [], 0⟩)
        | Except.ok (resized, _size) =>
          if sink.openOk then
            match writeLoop sink.writeOk resized 0 with
            | (res, written) => (res, ⟨warnings, img_array.length, true, written, 1⟩)
          else
            (Except.error Err.sinkOpen, ⟨warnings, img_array.length, false, [], 0⟩)

/-- Output-path normalization in `main` (src/main.py lines 130-132): if the
path does not end with `.mp4` case-insensitively, either append
`\output.mp4` after stripping trailing backslashes (when the path contains a
backslash) or append `.mp4`. -/
def fixOutputPath (output_path : List Char) : List Char :=
  if ¬ endsWithL (lowerL output_path) ['.', 'm', 'p', '4'] then
    if '\\' ∈ output_path then
      pyRstrip output_path '\\' ++ ['\\', 'o', 'u', 't', 'p', 'u', 't', '.', 'm', 'p', '4']
    else output_path ++ ['.', 'm', 'p', '4']
  else output_path

/-- The element-wise `.copy()` of a list of images with consecutively
allocated fresh buffers: what `resize`'s second loop produces when no image
needs resampling. -/
def copyAll (fresh : Nat) : List Image → List Image
  | [] => []
  | img :: rest => Image.copy img fresh :: copyAll (fresh + 1) rest

/-- Well-formedness of a token-run list: runs alternate digit-free text
(possibly empty) and nonempty digit runs, starting and ending with text. -/
def runsShape : List (List Char) → Bool
  | [t] => t.all (fun c => !c.isDigit)
  | t :: d :: rest =>
    t.all (fun c => !c.isDigit) && !d.isEmpty && d.all Char.isDigit && runsShape rest
  | [] => false

/-- The first character, if any, is not a digit. -/
def headNotDigit : List Char → Bool
  | [] => true
  | c :: _ => !c.isDigit

/-! ### Lemmas and claim theorems -/

/-! ### Helper lemmas about `resize` -/

lemma foldl_dims_pair (f : Nat → Nat → Nat) (l : List Image) :
    ∀ a b : Nat,
      l.foldl (fun p img => (f p.1 img.height, f p.2 img.width)) (a, b)
        = ((l.map Image.height).foldl f a, (l.map Image.width).foldl f b) := by
  induction l with
  | nil => intro a b; rfl
  | cons x xs ih => intro a b; simp only [List.foldl_cons, List.map_cons, ih]

lemma foldl_min_le_init (l : List Nat) : ∀ a : Nat, l.foldl min a ≤ a := by
  induction l with
  | nil => intro a; simp
  | cons x xs ih =>
    intro a
    exact le_trans (ih (min a x)) (min_le_left a x)

lemma foldl_min_le_mem (l : List Nat) (x : Nat) (hx : x ∈ l) :
    ∀ a : Nat, l.foldl min a ≤ x := by
  induction l with
  | nil => cases hx
  | cons y ys ih =>
    intro a
    rcases List.mem_cons.mp hx with rfl | h
    · exact le_trans (foldl_min_le_init ys (min a x)) (min_le_right a x)
    · exact ih h (min a y)

lemma foldl_min_mem (l : List Nat) : ∀ a : Nat, l.foldl min a = a ∨ l.foldl min a ∈ l := by
  induction l with
  | nil => intro a; exact Or.inl rfl
  | cons y ys ih =>
    intro a
    have step : (y :: ys).foldl min a = ys.foldl min (min a y) := rfl
    rcases ih (min a y) with h | h
    · rcases Nat.le_total a y with hay | hya
      · exact Or.inl (by rw [step, h]; exact min_eq_left hay)
      · refine Or.inr ?_
        rw [step, h]
        have : min a y = y := min_eq_right hya
        rw [this]
        exact List.mem_cons_self y ys
    · exact Or.inr (by rw [step]; exact List.mem_cons_of_mem y h)

lemma foldl_max_ge_init (l : List Nat) : ∀ a : Nat, a ≤ l.foldl max a := by
  induction l with
  | nil => intro a; simp
  | cons x xs ih =>
    intro a
    exact le_trans (le_max_left a x) (ih (max a x))

lemma foldl_max_ge_mem (l : List Nat) (x : Nat) (hx : x ∈ l) :
    ∀ a : Nat, x ≤ l.foldl max a := by
  induction l with
  | nil => cases hx
  | cons y ys ih =>
    intro a
    rcases List.mem_cons.mp hx with rfl | h
    · exact le_trans (le_max_right a x) (foldl_max_ge_init ys (max a x))
    · exact ih h (max a y)

lemma foldl_max_mem (l : List Nat) : ∀ a : Nat, l.foldl max a = a ∨ l.foldl max a ∈ l := by
  induction l with
  | nil => intro a; exact Or.inl rfl
  | cons y ys ih =>
    intro a
    have step : (y :: ys).foldl max a = ys.foldl max (max a y) := rfl
    rcases ih (max a y) with h | h
    · rcases Nat.le_total a y with hay | hya
      · refine Or.inr ?_
        rw [step, h]
        have : max a y = y := max_eq_right hay
        rw [this]
        exact List.mem_cons_self y ys
      · exact Or.inl (by rw [step, h]; exact max_eq_left hya)
    · exact Or.inr (by rw [step]; exact List.mem_cons_of_mem y h)

lemma resize_cons (first : Image) (rest : List Image) (mode : String) (fresh : Nat) :
    resize (first :: rest) mode fresh
      = Except.ok
          (resizeAll
             (rest.foldl (fun p img =>
                if mode = "smallest" then (min p.1 img.height, min p.2 img.width)
                else (max p.1 img.height, max p.2 img.width))
               (first.height, first.width)) fresh (first :: rest),
           ((rest.foldl (fun p img =>
                if mode = "smallest" then (min p.1 img.height, min p.2 img.width)
                else (max p.1 img.height, max p.2 img.width))
               (first.height, first.width)).2,
            (rest.foldl (fun p img =>
                if mode = "smallest" then (min p.1 img.height, min p.2 img.width)
                else (max p.1 img.height, max p.2 img.width))
               (first.height, first.width)).1)) := rfl

lemma resize_eq_min (first : Image) (rest : List Image) (fresh : Nat) :
    resize (first :: rest) "smallest" fresh
      = Except.ok
          (resizeAll ((rest.map Image.height).foldl min first.height,
                      (rest.map Image.width).foldl min first.width) fresh (first :: rest),
           ((rest.map Image.width).foldl min first.width,
            (rest.map Image.height).foldl min first.height)) := by
  have hfn : (fun (p : Nat × Nat) (img : Image) =>
      if ("smallest" : String) = "smallest" then (min p.1 img.height, min p.2 img.width)
      else (max p.1 img.height, max p.2 img.width))
      = fun (p : Nat × Nat) (img : Image) => (min p.1 img.height, min p.2 img.width) := by
    funext p img; rw [if_pos rfl]
  rw [resize_cons, hfn, foldl_dims_pair]

lemma resize_eq_max (first : Image) (rest : List Image) (mode : String) (fresh : Nat)
    (hm : mode ≠ "smallest") :
    resize (first :: rest) mode fresh
      = Except.ok
          (resizeAll ((rest.map Image.height).foldl max first.height,
                      (rest.map Image.width).foldl max first.width) fresh (first :: rest),
           ((rest.map Image.width).foldl max first.width,
            (rest.map Image.height).foldl max first.height)) := by
  have hfn : (fun (p : Nat × Nat) (img : Image) =>
      if mode = "smallest" then (min p.1 img.height, min p.2 img.width)
      else (max p.1 img.height, max p.2 img.width))
      = fun (p : Nat × Nat) (img : Image) => (max p.1 img.height, max p.2 img.width) := by
    funext p img; rw [if_neg hm]
  rw [resize_cons, hfn, foldl_dims_pair]

lemma resizeAll_length (t : Nat × Nat) (l : List Image) :
    ∀ f : Nat, (resizeAll t f l).length = l.length := by
  induction l with
  | nil => intro f; rfl
  | cons x xs ih => intro f; simp [resizeAll, ih]

lemma cv2_resize_dims (img : Image) (w h f : Nat) :
    (cv2_resize img w h f).height = h ∧ (cv2_resize img w h f).width = w := by
  cases img with
  | mk s d b => cases s <;> exact ⟨rfl, rfl⟩

lemma resizeAll_dims (t : Nat × Nat) (l : List Image) :
    ∀ f : Nat, ∀ img ∈ resizeAll t f l, img.height = t.1 ∧ img.width = t.2 := by
  induction l with
  | nil => intro f img h; cases h
  | cons x xs ih =>
    intro f img h
    rcases List.mem_cons.mp h with rfl | h2
    · by_cases hx : (x.height, x.width) ≠ t
      · rw [if_pos hx]
        exact cv2_resize_dims x t.2 t.1 f
      · rw [if_neg hx]
        have := of_not_not hx
        exact ⟨congrArg Prod.fst this, congrArg Prod.snd this⟩
    · exact ih (f + 1) img h2

/-- C1: for a non-empty image sequence, `resize` with policy `'smallest'`
(resp. any other policy) returns as target the element-wise minimum (resp.
maximum) of the inputs' heights and widths, each axis independently; the
returned sequence has the input's length, every returned image has exactly
the target size, and the target is returned as a `(width, height)` pair.
On inputs sized (w,h) = (10,10), (20,20), (5,30), `'smallest'` yields
(5,10) and `'largest'` yields (20,30). -/
theorem resize_policy_correct :
    (∀ (imgs : List Image) (fresh : Nat), imgs ≠ [] →
      ∃ out W H, resize imgs "smallest" fresh = Except.ok (out, (W, H)) ∧
        out.length = imgs.length ∧
        (∀ img ∈ out, img.width = W ∧ img.height = H) ∧
        W ∈ imgs.map Image.width ∧ (∀ x ∈ imgs.map Image.width, W ≤ x) ∧
        H ∈ imgs.map Image.height ∧ (∀ x ∈ imgs.map Image.height, H ≤ x)) ∧
    (∀ (imgs : List Image) (fresh : Nat) (mode : String), imgs ≠ [] → mode ≠ "smallest" →
      ∃ out W H, resize imgs mode fresh = Except.ok (out, (W, H)) ∧
        out.length = imgs.length ∧
        (∀ img ∈ out, img.width = W ∧ img.height = H) ∧
        W ∈ imgs.map Image.width ∧ (∀ x ∈ imgs.map Image.width, x ≤ W) ∧
        H ∈ imgs.map Image.height ∧ (∀ x ∈ imgs.map Image.height, x ≤ H)) ∧
    (resize [⟨Shape.color 10 10 3, [], 0⟩, ⟨Shape.color 20 20 3, [], 1⟩,
             ⟨Shape.color 30 5 3, [], 2⟩] "smallest" 0
       |>.map (fun r => r.2)) = Except.ok (5, 10) ∧
    (resize [⟨Shape.color 10 10 3, [], 0⟩, ⟨Shape.color 20 20 3, [], 1⟩,
             ⟨Shape.color 30 5 3, [], 2⟩] "largest" 0
       |>.map (fun r => r.2)) = Except.ok (20, 30) := by
  refine ⟨?_, ?_, by decide, by decide⟩
  · intro imgs fresh hne
    match imgs, hne with
    | first :: rest, _ =>
      refine ⟨_, _, _, resize_eq_min first rest fresh, resizeAll_length _ _ _, ?_, ?_, ?_, ?_, ?_⟩
      · intro img hmem
        have h := resizeAll_dims _ _ fresh img hmem
        exact ⟨h.2, h.1⟩
      · rcases foldl_min_mem (rest.map Image.width) first.width with h | h
        · rw [h]; exact List.mem_cons_self _ _
        · exact List.mem_cons_of_mem _ h
      · intro x hx
        rcases List.mem_cons.mp hx with rfl | h
        · exact foldl_min_le_init _ _
        · exact foldl_min_le_mem _ _ h _
      · rcases foldl_min_mem (rest.map Image.height) first.height with h | h
        · rw [h]; exact List.mem_cons_self _ _
        · exact List.mem_cons_of_mem _ h
      · intro x hx
        rcases List.mem_cons.mp hx with rfl | h
        · exact foldl_min_le_init _ _
        · exact foldl_min_le_mem _ _ h _
  · intro imgs fresh mode hne hm
    match imgs, hne with
    | first :: rest, _ =>
      refine ⟨_, _, _, resize_eq_max first rest mode fresh hm, resizeAll_length _ _ _,
        ?_, ?_, ?_, ?_, ?_⟩
      · intro img hmem
        have h := resizeAll_dims _ _ fresh img hmem
        exact ⟨h.2, h.1⟩
      · rcases foldl_max_mem (rest.map Image.width) first.width with h | h
        · rw [h]; exact List.mem_cons_self _ _
        · exact List.mem_cons_of_mem _ h
      · intro x hx
        rcases List.mem_cons.mp hx with rfl | h
        · exact foldl_max_ge_init _ _
        · exact foldl_max_ge_mem _ _ h _
      · rcases foldl_max_mem (rest.map Image.height) first.height with h | h
        · rw [h]; exact List.mem_cons_self _ _
        · exact List.mem_cons_of_mem _ h
      · intro x hx
        rcases List.mem_cons.mp hx with rfl | h
        · exact foldl_max_ge_init _ _
        · exact foldl_max_ge_mem _ _ h _

/-- Witness for C1: the two universally quantified parts applied at a
concrete one-image input, with their hypotheses discharged there. -/
theorem resize_policy_correct_witness :
    ((([⟨Shape.color 3 4 3, [], 0⟩] : List Image) ≠ []) ∧
      ∃ out W H, resize [⟨Shape.color 3 4 3, [], 0⟩] "smallest" 9 = Except.ok (out, (W, H)) ∧
        out.length = ([⟨Shape.color 3 4 3, [], 0⟩] : List Image).length ∧
        (∀ img ∈ out, img.width = W ∧ img.height = H) ∧
        W ∈ ([⟨Shape.color 3 4 3, [], 0⟩] : List Image).map Image.width ∧
        (∀ x ∈ ([⟨Shape.color 3 4 3, [], 0⟩] : List Image).map Image.width, W ≤ x) ∧
        H ∈ ([⟨Shape.color 3 4 3, [], 0⟩] : List Image).map Image.height ∧
        (∀ x ∈ ([⟨Shape.color 3 4 3, [], 0⟩] : List Image).map Image.height, H ≤ x)) ∧
    ((([⟨Shape.color 3 4 3, [], 0⟩] : List Image) ≠ []) ∧ ("largest" : String) ≠ "smallest" ∧
      ∃ out W H, resize [⟨Shape.color 3 4 3, [], 0⟩] "largest" 9 = Except.ok (out, (W, H)) ∧
        out.length = ([⟨Shape.color 3 4 3, [], 0⟩] : List Image).length ∧
        (∀ img ∈ out, img.width = W ∧ img.height = H) ∧
        W ∈ ([⟨Shape.color 3 4 3, [], 0⟩] : List Image).map Image.width ∧
        (∀ x ∈ ([⟨Shape.color 3 4 3, [], 0⟩] : List Image).map Image.width, x ≤ W) ∧
        H ∈ ([⟨Shape.color 3 4 3, [], 0⟩] : List Image).map Image.height ∧
        (∀ x ∈ ([⟨Shape.color 3 4 3, [], 0⟩] : List Image).map Image.height, x ≤ H)) :=
  ⟨⟨by decide, resize_policy_correct.1 [⟨Shape.color 3 4 3, [], 0⟩] 9 (by decide)⟩,
   ⟨by decide, by decide,
    resize_policy_correct.2.1 [⟨Shape.color 3 4 3, [], 0⟩] 9 "largest" (by decide) (by decide)⟩⟩

/-- C9: `resize` on the empty image sequence raises (the precondition
error: `img_array[0]` fails) for every policy; it never returns a result. -/
theorem resize_empty_error (align_mode : String) (fresh : Nat) :
    resize [] align_mode fresh = Except.error Err.precondition := rfl

/-- C7: color canonicalization makes decoded images 3-channel: a 2-D
(grayscale) raster becomes 3-channel, a 4-channel raster becomes 3-channel
with the fourth channel dropped, and a 3-channel raster passes through
unchanged. -/
theorem canonicalize_channels :
    (∀ (h w : Nat) (data : List Nat) (buf : Nat),
        (canonicalizeColor ⟨Shape.gray h w, data, buf⟩).shape = Shape.color h w 3) ∧
    (∀ (h w : Nat) (data : List Nat) (buf : Nat),
        (canonicalizeColor ⟨Shape.color h w 4, data, buf⟩).shape = Shape.color h w 3 ∧
        (canonicalizeColor ⟨Shape.color h w 4, data, buf⟩).data = dropAlpha data) ∧
    (∀ (img : Image) (h w : Nat), img.shape = Shape.color h w 3 →
        canonicalizeColor img = img) := by
  refine ⟨fun h w data buf => rfl, fun h w data buf => ⟨?_, ?_⟩, ?_⟩
  · simp [canonicalizeColor]
  · simp [canonicalizeColor]
  · intro img h w hs
    cases img with
    | mk s d b =>
      cases hs
      simp [canonicalizeColor]

/-- Witness for C7: the pass-through part applied at a concrete 3-channel
image. -/
theorem canonicalize_channels_witness :
    (Image.shape ⟨Shape.color 2 2 3, [7], 0⟩ = Shape.color 2 2 3) ∧
    canonicalizeColor ⟨Shape.color 2 2 3, [7], 0⟩ = ⟨Shape.color 2 2 3, [7], 0⟩ :=
  ⟨by decide, canonicalize_channels.2.2 ⟨Shape.color 2 2 3, [7], 0⟩ 2 2 (by decide)⟩

/-- Helper: `endswith` holds for a literal suffix. -/
lemma endsWithL_append (a suf : List Char) : endsWithL (a ++ suf) suf = true := by
  simp only [endsWithL, decide_eq_true_eq, List.length_append, Nat.add_sub_cancel]
  exact List.drop_left a suf

/-- C8: a requested output path that does not already end in `.mp4`
(case-insensitively) is normalized to one that ends in `.mp4`; a path that
already ends in `.mp4` case-insensitively is passed through unchanged. -/
theorem fix_output_path_correct :
    (∀ p : List Char, endsWithL (lowerL p) ['.', 'm', 'p', '4'] = false →
        endsWithL (fixOutputPath p) ['.', 'm', 'p', '4'] = true) ∧
    (∀ p : List Char, endsWithL (lowerL p) ['.', 'm', 'p', '4'] = true →
        fixOutputPath p = p) := by
  constructor
  · intro p h
    rw [fixOutputPath, if_pos (by simp [h])]
    by_cases hb : '\\' ∈ p
    · rw [if_pos hb]
      have e : (['\\', 'o', 'u', 't', 'p', 'u', 't', '.', 'm', 'p', '4'] : List Char)
          = ['\\', 'o', 'u', 't', 'p', 'u', 't'] ++ ['.', 'm', 'p', '4'] := rfl
      rw [e, ← List.append_assoc]
      exact endsWithL_append _ _
    · rw [if_neg hb]
      exact endsWithL_append _ _
  · intro p h
    rw [fixOutputPath, if_neg (by simp [h])]

/-- Witness for C8: both parts applied at concrete paths. -/
theorem fix_output_path_correct_witness :
    (endsWithL (lowerL ("out".toList)) ['.', 'm', 'p', '4'] = false ∧
      endsWithL (fixOutputPath ("out".toList)) ['.', 'm', 'p', '4'] = true) ∧
    (endsWithL (lowerL ("a.MP4".toList)) ['.', 'm', 'p', '4'] = true ∧
      fixOutputPath ("a.MP4".toList) = "a.MP4".toList) :=
  ⟨⟨by decide, fix_output_path_correct.1 ("out".toList) (by decide)⟩,
   ⟨by decide, fix_output_path_correct.2 ("a.MP4".toList) (by decide)⟩⟩

lemma foldl_dims_const (mode : String) (l : List Image) (H W : Nat)
    (h : ∀ img ∈ l, img.height = H ∧ img.width = W) :
    l.foldl (fun p img =>
        if mode = "smallest" then (min p.1 img.height, min p.2 img.width)
        else (max p.1 img.height, max p.2 img.width)) (H, W) = (H, W) := by
  induction l with
  | nil => rfl
  | cons x xs ih =>
    have hx := h x (List.mem_cons_self x xs)
    rw [List.foldl_cons]
    have hstep : (if mode = "smallest"
        then (min H x.height, min W x.width)
        else (max H x.height, max W x.width)) = (H, W) := by
      by_cases hm : mode = "smallest" <;> simp [hm, hx.1, hx.2]
    rw [hstep]
    exact ih (fun img hi => h img (List.mem_cons_of_mem x hi))

lemma resizeAll_uniform (t : Nat × Nat) (l : List Image)
    (h : ∀ img ∈ l, (img.height, img.width) = t) :
    ∀ f : Nat, resizeAll t f l = copyAll f l := by
  induction l with
  | nil => intro f; rfl
  | cons x xs ih =>
    intro f
    have hx := h x (List.mem_cons_self x xs)
    simp only [resizeAll, copyAll, if_neg (not_not_intro hx)]
    rw [ih (fun img hi => h img (List.mem_cons_of_mem x hi))]

lemma copyAll_length (l : List Image) : ∀ f : Nat, (copyAll f l).length = l.length := by
  induction l with
  | nil => intro f; rfl
  | cons x xs ih => intro f; simp [copyAll, ih]

lemma copyAll_map_data (l : List Image) :
    ∀ f : Nat, (copyAll f l).map Image.data = l.map Image.data := by
  induction l with
  | nil => intro f; rfl
  | cons x xs ih => intro f; simp [copyAll, ih, Image.copy]

lemma copyAll_map_shape (l : List Image) :
    ∀ f : Nat, (copyAll f l).map Image.shape = l.map Image.shape := by
  induction l with
  | nil => intro f; rfl
  | cons x xs ih => intro f; simp [copyAll, ih, Image.copy]

lemma copyAll_buf_ge (l : List Image) :
    ∀ f : Nat, ∀ o ∈ copyAll f l, f ≤ o.buf := by
  induction l with
  | nil => intro f o ho; cases ho
  | cons x xs ih =>
    intro f o ho
    rcases List.mem_cons.mp ho with rfl | h2
    · exact le_refl _
    · exact le_trans (Nat.le_succ f) (ih (f + 1) o h2)

/-- C3: on a non-empty input whose images all already have the computed
target size — in particular on every single-image input — `resize` returns
a same-length sequence of fresh copies: same shapes and pixel data, no
resampling, and no output aliases any input buffer.  A single image comes
back (copied) with its own `(width, height)` as target. -/
theorem resize_uniform_copies :
    (∀ (imgs : List Image) (mode : String) (fresh H W : Nat),
        imgs ≠ [] → (∀ img ∈ imgs, img.height = H ∧ img.width = W) →
        resize imgs mode fresh = Except.ok (copyAll fresh imgs, (W, H)) ∧
        (copyAll fresh imgs).length = imgs.length ∧
        (copyAll fresh imgs).map Image.data = imgs.map Image.data ∧
        (copyAll fresh imgs).map Image.shape = imgs.map Image.shape ∧
        ((∀ img ∈ imgs, img.buf < fresh) →
          ∀ o ∈ copyAll fresh imgs, ∀ j ∈ imgs, o.buf ≠ j.buf)) ∧
    (∀ (img : Image) (mode : String) (fresh : Nat),
        resize [img] mode fresh = Except.ok ([img.copy fresh], (img.width, img.height))) := by
  constructor
  · intro imgs mode fresh H W hne h
    have halias : (∀ img ∈ imgs, img.buf < fresh) →
        ∀ o ∈ copyAll fresh imgs, ∀ j ∈ imgs, o.buf ≠ j.buf := by
      intro hb o ho j hj heq
      have h1 : fresh ≤ o.buf := copyAll_buf_ge imgs fresh o ho
      have h2 : j.buf < fresh := hb j hj
      omega
    refine ⟨?_, copyAll_length imgs fresh, copyAll_map_data imgs fresh,
      copyAll_map_shape imgs fresh, halias⟩
    match imgs, hne, h with
    | first :: rest, _, h =>
      have hf := h first (List.mem_cons_self first rest)
      have hinit : (first.height, first.width) = (H, W) := by rw [hf.1, hf.2]
      rw [resize_cons, hinit,
        foldl_dims_const mode rest H W (fun img hi => h img (List.mem_cons_of_mem first hi)),
        resizeAll_uniform (H, W) (first :: rest)
          (fun img hi => by rw [(h img hi).1, (h img hi).2]) fresh]
  · intro img mode fresh
    rw [resize_cons]
    simp [resizeAll, copyAll, List.foldl_nil]

/-- Witness for C3: the uniform-size part applied at a concrete two-image
input of equal sizes, with its hypotheses discharged there. -/
theorem resize_uniform_copies_witness :
    ((([⟨Shape.color 2 3 3, [1], 0⟩, ⟨Shape.gray 2 3, [9], 1⟩] : List Image) ≠ []) ∧
      (∀ img ∈ ([⟨Shape.color 2 3 3, [1], 0⟩, ⟨Shape.gray 2 3, [9], 1⟩] : List Image),
        img.height = 2 ∧ img.width = 3)) ∧
    (resize [⟨Shape.color 2 3 3, [1], 0⟩, ⟨Shape.gray 2 3, [9], 1⟩] "largest" 5
        = Except.ok (copyAll 5 [⟨Shape.color 2 3 3, [1], 0⟩, ⟨Shape.gray 2 3, [9], 1⟩], (3, 2)) ∧
      (copyAll 5 [⟨Shape.color 2 3 3, [1], 0⟩, ⟨Shape.gray 2 3, [9], 1⟩]).length
        = ([⟨Shape.color 2 3 3, [1], 0⟩, ⟨Shape.gray 2 3, [9], 1⟩] : List Image).length ∧
      (copyAll 5 [⟨Shape.color 2 3 3, [1], 0⟩, ⟨Shape.gray 2 3, [9], 1⟩]).map Image.data
        = ([⟨Shape.color 2 3 3, [1], 0⟩, ⟨Shape.gray 2 3, [9], 1⟩] : List Image).map Image.data ∧
      (copyAll 5 [⟨Shape.color 2 3 3, [1], 0⟩, ⟨Shape.gray 2 3, [9], 1⟩]).map Image.shape
        = ([⟨Shape.color 2 3 3, [1], 0⟩, ⟨Shape.gray 2 3, [9], 1⟩] : List Image).map Image.shape ∧
      ((∀ img ∈ ([⟨Shape.color 2 3 3, [1], 0⟩, ⟨Shape.gray 2 3, [9], 1⟩] : List Image),
          img.buf < 5) →
        ∀ o ∈ copyAll 5 [⟨Shape.color 2 3 3, [1], 0⟩, ⟨Shape.gray 2 3, [9], 1⟩],
          ∀ j ∈ ([⟨Shape.color 2 3 3, [1], 0⟩, ⟨Shape.gray 2 3, [9], 1⟩] : List Image),
            o.buf ≠ j.buf)) :=
  ⟨⟨by decide, by decide⟩,
   resize_uniform_copies.1 [⟨Shape.color 2 3 3, [1], 0⟩, ⟨Shape.gray 2 3, [9], 1⟩]
     "largest" 5 2 3 (by decide) (by decide)⟩

lemma splitRuns_cons_digit_merge (c : Char) (cs d : List Char) (rest : List (List Char))
    (hc : c.isDigit = true) (h : splitRuns cs = [] :: d :: rest) :
    splitRuns (c :: cs) = [] :: (c :: d) :: rest := by
  simp [splitRuns, h, hc]

lemma splitRuns_cons_digit_front (c a : Char) (t cs : List Char) (rest : List (List Char))
    (hc : c.isDigit = true) (h : splitRuns cs = (a :: t) :: rest) :
    splitRuns (c :: cs) = [] :: [c] :: (a :: t) :: rest := by
  simp [splitRuns, h, hc]

lemma splitRuns_cons_digit_single (c : Char) (cs : List Char)
    (hc : c.isDigit = true) (h : splitRuns cs = [[]]) :
    splitRuns (c :: cs) = [] :: [c] :: [[]] := by
  simp [splitRuns, h, hc]

lemma splitRuns_cons_nondigit (c : Char) (cs t : List Char) (rest : List (List Char))
    (hc : c.isDigit = false) (h : splitRuns cs = t :: rest) :
    splitRuns (c :: cs) = (c :: t) :: rest := by
  simp [splitRuns, h, hc]

lemma runsShape_ne (rs : List (List Char)) (h : runsShape rs = true) : rs ≠ [] := by
  intro e
  subst e
  simp [runsShape] at h

lemma splitRuns_shape : ∀ s : List Char, runsShape (splitRuns s) = true := by
  intro s
  induction s with
  | nil => rfl
  | cons c cs ih =>
    cases hc : c.isDigit with
    | false =>
      cases h : splitRuns cs with
      | nil => exact absurd h (runsShape_ne _ ih)
      | cons t rest =>
        rw [h] at ih
        rw [splitRuns_cons_nondigit c cs t rest hc h]
        cases rest with
        | nil =>
          simp only [runsShape, List.all_cons, hc] at ih ⊢
          simpa using ih
        | cons d rest' =>
          simp only [runsShape, List.all_cons, hc] at ih ⊢
          simpa using ih
    | true =>
      cases h : splitRuns cs with
      | nil => exact absurd h (runsShape_ne _ ih)
      | cons t rest =>
        cases t with
        | cons a t' =>
          rw [h] at ih
          rw [splitRuns_cons_digit_front c a t' cs rest hc h]
          simp only [runsShape, List.all_cons, hc] at ih ⊢
          simpa using ih
        | nil =>
          cases rest with
          | nil =>
            rw [splitRuns_cons_digit_single c cs hc h]
            simp [runsShape, hc]
          | cons d rest' =>
            rw [h] at ih
            rw [splitRuns_cons_digit_merge c cs d rest' hc h]
            simp only [runsShape, List.all_cons, hc] at ih ⊢
            simp at ih ⊢
            exact ⟨ih.1.2, ih.2⟩

lemma tokOf_digits (d : List Char) (hd : d ≠ []) (hdall : ∀ c ∈ d, c.isDigit = true) :
    tokOf d = Tok.num (digitsVal d) := by
  rw [tokOf, if_pos]
  refine ⟨hd, List.all_eq_true.mpr (fun c hc => ?_)⟩
  simp [pyIsDigit, hdall c hc]

lemma strCmp_self : ∀ l : List Char, strCmp l l = Ordering.eq := by
  intro l
  induction l with
  | nil => rfl
  | cons c cs ih => simp [strCmp, lt_irrefl, ih]

lemma natCmp_self (n : Nat) : natCmp n n = Ordering.eq := by
  simp [natCmp]

lemma tokCmp_self (a : Tok) : tokCmp a a = some Ordering.eq := by
  cases a <;> simp [tokCmp, strCmp_self, natCmp_self]

/-- C10: refuted on the program — the key does NOT always alternate string
and integer tokens, and key-based sorting is not total.  Python's
`str.isdigit` is Unicode-aware while the split pattern `[0-9]+` is
ASCII-only, so a non-ASCII digit such as `٣` (U+0663) lands inside a
"text" segment which `isdigit` then accepts: the key of `"1٣2.jpg"` is
`['', 1, 3, 2, '.jpg']`, an integer at even position 2, and comparing it
with the key of `"1a2.jpg"` is the undefined int-versus-str comparison
(Python's `TypeError`), so sorting those two filenames raises. -/
theorem natural_sort_key_not_alternating :
    natural_sort_key ("1٣2.jpg".toList)
      = [Tok.str [], Tok.num 1, Tok.num 3, Tok.num 2, Tok.str (".jpg".toList)] ∧
    keyCmp (natural_sort_key ("1٣2.jpg".toList)) (natural_sort_key ("1a2.jpg".toList))
      = none := by decide

lemma splitRuns_head_cons (a : Char) (suf : List Char) (ha : a.isDigit = false) :
    ∃ t rest, splitRuns (a :: suf) = (a :: t) :: rest := by
  cases h : splitRuns suf with
  | nil => exact absurd h (runsShape_ne _ (splitRuns_shape suf))
  | cons t rest => exact ⟨t, rest, splitRuns_cons_nondigit a suf t rest ha h⟩

lemma splitRuns_digits (d suf : List Char) (hd : d ≠ [])
    (hdall : ∀ c ∈ d, c.isDigit = true) (hsuf : headNotDigit suf = true) :
    splitRuns (d ++ suf) = [] :: d :: splitRuns suf := by
  induction d with
  | nil => exact absurd rfl hd
  | cons c d' ih =>
    have hc : c.isDigit = true := hdall c (List.mem_cons_self c d')
    cases d' with
    | nil =>
      cases suf with
      | nil => simp [splitRuns, hc]
      | cons a suf' =>
        have ha : a.isDigit = false := by simpa [headNotDigit] using hsuf
        obtain ⟨t, rest, h⟩ := splitRuns_head_cons a suf' ha
        rw [List.singleton_append, splitRuns_cons_digit_front c a t (a :: suf') rest hc h, h]
    | cons c2 d'' =>
      have ih' := ih (List.cons_ne_nil c2 d'')
        (fun x hx => hdall x (List.mem_cons_of_mem c hx))
      rw [List.cons_append,
        splitRuns_cons_digit_merge c ((c2 :: d'') ++ suf) (c2 :: d'') (splitRuns suf) hc ih']

lemma splitRuns_pre (pre : List Char) (hpre : ∀ c ∈ pre, c.isDigit = false) :
    ∀ (ll t : List Char) (rest : List (List Char)), splitRuns ll = t :: rest →
      splitRuns (pre ++ ll) = (pre ++ t) :: rest := by
  induction pre with
  | nil => intro ll t rest h; simpa using h
  | cons p pre' ih =>
    intro ll t rest h
    have hp : p.isDigit = false := hpre p (List.mem_cons_self p pre')
    have h' := ih (fun c hc => hpre c (List.mem_cons_of_mem p hc)) ll t rest h
    rw [List.cons_append, splitRuns_cons_nondigit p (pre' ++ ll) (pre' ++ t) rest hp h',
      List.cons_append]

lemma natural_sort_key_split (pre d suf : List Char)
    (hpre : ∀ c ∈ pre, c.isDigit = false) (hd : d ≠ [])
    (hdall : ∀ c ∈ d, c.isDigit = true) (hsuf : headNotDigit suf = true) :
    natural_sort_key (pre ++ d ++ suf)
      = tokOf pre :: Tok.num (digitsVal d) :: (splitRuns suf).map tokOf := by
  have h1 := splitRuns_digits d suf hd hdall hsuf
  have h2 := splitRuns_pre pre hpre (d ++ suf) [] (d :: splitRuns suf) h1
  rw [List.append_assoc, natural_sort_key, h2, List.append_nil, List.map_cons,
    List.map_cons, tokOf_digits d hd hdall]

/-- C2: the natural-sort key splits a filename into alternating non-digit
runs (lowercased text) and digit runs (integers), and two filenames with a
common digit-free front and differing embedded numbers compare by the
numeric value of those numbers; consequently
`["img2.jpg","img10.jpg","img1.jpg"]` sorts to
`["img1.jpg","img2.jpg","img10.jpg"]`. -/
theorem natural_sort_correct :
    (∀ pre d1 d2 suf1 suf2 : List Char,
        (∀ c ∈ pre, c.isDigit = false) →
        d1 ≠ [] → (∀ c ∈ d1, c.isDigit = true) →
        d2 ≠ [] → (∀ c ∈ d2, c.isDigit = true) →
        headNotDigit suf1 = true → headNotDigit suf2 = true →
        digitsVal d1 < digitsVal d2 →
        keyCmp (natural_sort_key (pre ++ d1 ++ suf1))
               (natural_sort_key (pre ++ d2 ++ suf2)) = some Ordering.lt) ∧
    natural_sort_key ("img10.jpg".toList)
      = [Tok.str ("img".toList), Tok.num 10, Tok.str (".jpg".toList)] ∧
    natural_sort_key ("IMG2.JPG".toList) = natural_sort_key ("img2.jpg".toList) ∧
    pySort fileNameLe ["img2.jpg", "img10.jpg", "img1.jpg"]
      = ["img1.jpg", "img2.jpg", "img10.jpg"] := by
  refine ⟨?_, by decide, by decide, by decide⟩
  intro pre d1 d2 suf1 suf2 hpre hd1 hd1all hd2 hd2all hsuf1 hsuf2 hlt
  rw [natural_sort_key_split pre d1 suf1 hpre hd1 hd1all hsuf1,
    natural_sort_key_split pre d2 suf2 hpre hd2 hd2all hsuf2]
  simp only [keyCmp, tokCmp_self]
  simp [tokCmp, natCmp, hlt]

/-- Witness for C2: the general numeric-comparison part applied at
`"frame9"` versus `"frame10.jpg"` (common front `"frame"`), with every
hypothesis discharged there. -/
theorem natural_sort_correct_witness :
    ((∀ c ∈ ("frame".toList), c.isDigit = false) ∧
      ("9".toList ≠ []) ∧ (∀ c ∈ ("9".toList), c.isDigit = true) ∧
      ("10".toList ≠ []) ∧ (∀ c ∈ ("10".toList), c.isDigit = true) ∧
      headNotDigit [] = true ∧ headNotDigit (".jpg".toList) = true ∧
      digitsVal ("9".toList) < digitsVal ("10".toList)) ∧
    keyCmp (natural_sort_key ("frame".toList ++ "9".toList ++ []))
           (natural_sort_key ("frame".toList ++ "10".toList ++ ".jpg".toList))
      = some Ordering.lt :=
  ⟨⟨by decide, by decide, by decide, by decide, by decide, by decide, by decide, by decide⟩,
   natural_sort_correct.1 ("frame".toList) ("9".toList) ("10".toList) [] (".jpg".toList)
     (by decide) (by decide) (by decide) (by decide) (by decide) (by decide) (by decide)
     (by decide)⟩

lemma decodeAll_eq (l : List FileEntry) :
    decodeAll l
      = ((l.filter (fun f => f.decoded.isNone)).map FileEntry.name,
         l.filterMap (fun f => f.decoded.map canonicalizeColor)) := by
  induction l with
  | nil => rfl
  | cons f rest ih =>
    cases hd : f.decoded with
    | none => simp [decodeAll, hd, ih, List.filter_cons, List.filterMap_cons]
    | some img => simp [decodeAll, hd, ih, List.filter_cons, List.filterMap_cons]

lemma decode_count (l : List FileEntry) :
    (l.filterMap (fun f => f.decoded.map canonicalizeColor)).length
      = (l.filter (fun f => f.decoded.isSome)).length := by
  induction l with
  | nil => rfl
  | cons f rest ih =>
    cases hd : f.decoded <;> simp [List.filterMap_cons, List.filter_cons, hd, ih]

lemma decode_none_iff (l : List FileEntry) :
    l.filterMap (fun f => f.decoded.map canonicalizeColor) = []
      ↔ ∀ f ∈ l, f.decoded = none := by
  rw [List.filterMap_eq_nil_iff]
  constructor
  · intro h f hf
    have := h f hf
    cases hd : f.decoded with
    | none => rfl
    | some img => rw [hd] at this; simp at this
  · intro h f hf
    rw [h f hf]
    rfl

lemma writeLoop_all_ok (writeOk : Nat → Bool) (h : ∀ i, writeOk i = true) :
    ∀ (frames : List Image) (i : Nat), writeLoop writeOk frames i = (Except.ok (), frames) := by
  intro frames
  induction frames with
  | nil => intro i; rfl
  | cons img rest ih => intro i; simp [writeLoop, h i, ih (i + 1)]

lemma writeLoop_res (writeOk : Nat → Bool) :
    ∀ (frames : List Image) (i : Nat),
      (writeLoop writeOk frames i).1 = Except.ok () ∨
      (writeLoop writeOk frames i).1 = Except.error Err.writeFailure := by
  intro frames
  induction frames with
  | nil => intro i; exact Or.inl rfl
  | cons img rest ih =>
    intro i
    cases hw : writeOk i with
    | false => exact Or.inr (by simp [writeLoop, hw])
    | true =>
      rcases h : writeLoop writeOk rest (i + 1) with ⟨res, written⟩
      have := ih (i + 1)
      rw [h] at this
      rcases this with h1 | h1 <;> simp at h1 <;> simp [writeLoop, hw, h, h1]

lemma resize_ok_length (imgs : List Image) (mode : String) (fresh : Nat) (hne : imgs ≠ []) :
    ∃ out t, resize imgs mode fresh = Except.ok (out, t) ∧ out.length = imgs.length := by
  match imgs, hne with
  | first :: rest, _ => exact ⟨_, _, resize_cons first rest mode fresh, resizeAll_length _ _ _⟩

/-- C5: discovery considers exactly the directory entries whose name ends
with one of the case-sensitive suffixes `.jpg`, `.jpeg`, `.png`, `.bmp`;
whenever the discovered set is empty (an empty directory, a nonexistent one
— which lists as empty — or one with only non-image files), the run fails
with the no-input-files error at once: nothing is decoded, no sink is
opened, no frame is written. -/
theorem discovery_correct :
    (∀ (f : FileEntry) (dir : List FileEntry),
        f ∈ image_files dir ↔ f ∈ dir ∧
          (endsWithL f.name ['.', 'j', 'p', 'g'] = true ∨
           endsWithL f.name ['.', 'j', 'p', 'e', 'g'] = true ∨
           endsWithL f.name ['.', 'p', 'n', 'g'] = true ∨
           endsWithL f.name ['.', 'b', 'm', 'p'] = true)) ∧
    (∀ (dir : List FileEntry) (sink : SinkBehavior) (fresh : Nat),
        image_files dir = [] →
        images_to_video dir sink fresh
          = (Except.error Err.noInputFiles, ⟨[], 0, false, [], 0⟩)) := by
  constructor
  · intro f dir
    simp only [image_files, supported_formats, globMatch, List.map_cons, List.map_nil,
      List.mem_flatten, List.mem_cons, List.not_mem_nil, or_false, List.mem_filter]
    constructor
    · rintro ⟨l, hl, hf⟩
      rcases hl with rfl | rfl | rfl | rfl <;>
        exact ⟨(List.mem_filter.mp hf).1, by
          have := (List.mem_filter.mp hf).2
          simp at this ⊢
          tauto⟩
    · rintro ⟨hdir, h4⟩
      rcases h4 with h | h | h | h
      · exact ⟨_, Or.inl rfl, List.mem_filter.mpr ⟨hdir, by simpa using h⟩⟩
      · exact ⟨_, Or.inr (Or.inl rfl), List.mem_filter.mpr ⟨hdir, by simpa using h⟩⟩
      · exact ⟨_, Or.inr (Or.inr (Or.inl rfl)), List.mem_filter.mpr ⟨hdir, by simpa using h⟩⟩
      · exact ⟨_, Or.inr (Or.inr (Or.inr rfl)), List.mem_filter.mpr ⟨hdir, by simpa using h⟩⟩
  · intro dir sink fresh h
    simp [images_to_video, h]

/-- Witness for C5: the no-input part applied at a directory holding only a
text file. -/
theorem discovery_correct_witness :
    image_files [⟨"a.txt".toList, none⟩] = [] ∧
    images_to_video [⟨"a.txt".toList, none⟩] ⟨true, fun _ => true⟩ 0
      = (Except.error Err.noInputFiles, ⟨[], 0, false, [], 0⟩) :=
  ⟨by decide, discovery_correct.2 [⟨"a.txt".toList, none⟩] ⟨true, fun _ => true⟩ 0 (by decide)⟩

/-- C4: if the sink cannot be opened, the run aborts with an error (the
sink-open error when the run reaches the encode step) before any frame is
written and without a release; once the sink has been successfully opened
it is released exactly once on every exit path — the release count equals 1
exactly when the sink was opened, for every write-failure pattern. -/
theorem sink_lifecycle (dir : List FileEntry) (sink : SinkBehavior) (fresh : Nat) :
    ((images_to_video dir sink fresh).2.releases
        = if (images_to_video dir sink fresh).2.sinkOpened then 1 else 0) ∧
    (sink.openOk = false →
      (images_to_video dir sink fresh).2.written = [] ∧
      (images_to_video dir sink fresh).2.releases = 0 ∧
      ∃ e, (images_to_video dir sink fresh).1 = Except.error e) ∧
    (image_files dir ≠ [] →
      (decodeAll (pySort entryLe (image_files dir))).2 ≠ [] →
      sink.openOk = false →
      (images_to_video dir sink fresh).1 = Except.error Err.sinkOpen) := by
  by_cases h1 : image_files dir = []
  · simp [images_to_video, h1]
  · rcases hd : decodeAll (pySort entryLe (image_files dir)) with ⟨warnings, imgs⟩
    by_cases h2 : imgs = []
    · subst h2
      simp [images_to_video, h1, hd]
    · obtain ⟨out, t, hr, hlen⟩ := resize_ok_length imgs "largest" fresh h2
      by_cases h3 : sink.openOk = true
      · rcases hw : writeLoop sink.writeOk out 0 with ⟨res, written⟩
        simp [images_to_video, h1, hd, h2, hr, h3, hw]
      · have h3' : sink.openOk = false := by
          revert h3; cases sink.openOk <;> simp
        simp [images_to_video, h1, hd, h2, hr, h3']

/-- Witness for C4: a directory with one decodable image and a sink that
fails to open; every hypothesis discharged there. -/
theorem sink_lifecycle_witness :
    (image_files [⟨"a.jpg".toList, some ⟨Shape.color 1 1 3, [0], 0⟩⟩] ≠ [] ∧
      (decodeAll (pySort entryLe
          (image_files [⟨"a.jpg".toList, some ⟨Shape.color 1 1 3, [0], 0⟩⟩]))).2 ≠ [] ∧
      (SinkBehavior.openOk ⟨false, fun _ => true⟩) = false) ∧
    (images_to_video [⟨"a.jpg".toList, some ⟨Shape.color 1 1 3, [0], 0⟩⟩]
        ⟨false, fun _ => true⟩ 0).1 = Except.error Err.sinkOpen :=
  ⟨⟨by decide, by decide, rfl⟩,
   (sink_lifecycle [⟨"a.jpg".toList, some ⟨Shape.color 1 1 3, [0], 0⟩⟩]
      ⟨false, fun _ => true⟩ 0).2.2 (by decide) (by decide) rfl⟩

/-- C6: a file that fails to decode is non-fatal — its name is logged as a
warning and it is skipped, in order; the run fails with the
no-decodable-images error exactly when zero files decode; otherwise (with a
working sink) it succeeds and the written video has exactly one frame per
successfully decoded image, in order, namely the normalized frames. -/
theorem decode_skip_correct (dir : List FileEntry) (sink : SinkBehavior) (fresh : Nat)
    (hfiles : image_files dir ≠ []) :
    ((decodeAll (pySort entryLe (image_files dir))).1
        = ((pySort entryLe (image_files dir)).filter (fun f => f.decoded.isNone)).map
            FileEntry.name) ∧
    ((images_to_video dir sink fresh).1 = Except.error Err.noDecodableImages ↔
        ∀ f ∈ pySort entryLe (image_files dir), f.decoded = none) ∧
    (sink.openOk = true → (∀ i, sink.writeOk i = true) →
      (¬ ∀ f ∈ pySort entryLe (image_files dir), f.decoded = none) →
      (images_to_video dir sink fresh).1 = Except.ok () ∧
      ∃ out size,
        resize (decodeAll (pySort entryLe (image_files dir))).2 "largest" fresh
          = Except.ok (out, size) ∧
        (images_to_video dir sink fresh).2.written = out ∧
        out.length
          = ((pySort entryLe (image_files dir)).filter (fun f => f.decoded.isSome)).length) := by
  rcases hd : decodeAll (pySort entryLe (image_files dir)) with ⟨warnings, imgs⟩
  have hdec := decodeAll_eq (pySort entryLe (image_files dir))
  rw [hd] at hdec
  have hwnames : warnings
      = ((pySort entryLe (image_files dir)).filter (fun f => f.decoded.isNone)).map
          FileEntry.name := congrArg Prod.fst hdec
  have hi : imgs
      = (pySort entryLe (image_files dir)).filterMap
          (fun f => f.decoded.map canonicalizeColor) := congrArg Prod.snd hdec
  have hiff : imgs = [] ↔ ∀ f ∈ pySort entryLe (image_files dir), f.decoded = none := by
    rw [hi]
    exact decode_none_iff _
  refine ⟨by simp [hd, hwnames], ?_, ?_⟩
  · by_cases h2 : imgs = []
    · constructor
      · intro _
        exact hiff.mp h2
      · intro _
        simp [images_to_video, hfiles, hd, h2]
    · constructor
      · intro hres
        exfalso
        obtain ⟨out, t, hr, hlen⟩ := resize_ok_length imgs "largest" fresh h2
        by_cases h3 : sink.openOk = true
        · rcases hw : writeLoop sink.writeOk out 0 with ⟨res, written⟩
          simp [images_to_video, hfiles, hd, h2, hr, h3, hw] at hres
          have hres' : res = Except.ok () ∨ res = Except.error Err.writeFailure := by
            have h5 := writeLoop_res sink.writeOk out 0
            rw [hw] at h5
            exact h5
          rcases hres' with h4 | h4 <;> rw [h4] at hres <;> simp at hres
        · have h3' : sink.openOk = false := by
            revert h3; cases sink.openOk <;> simp
          simp [images_to_video, hfiles, hd, h2, hr, h3'] at hres
      · intro hall
        exact absurd (hiff.mpr hall) h2
  · intro h3 hwok hnall
    have h2 : imgs ≠ [] := fun e => hnall (hiff.mp e)
    obtain ⟨out, t, hr, hlen⟩ := resize_ok_length imgs "largest" fresh h2
    have hw := writeLoop_all_ok sink.writeOk hwok out 0
    refine ⟨by simp [images_to_video, hfiles, hd, h2, hr, h3, hw], out, t, by simp [hr], ?_, ?_⟩
    · simp [images_to_video, hfiles, hd, h2, hr, h3, hw]
    · rw [hlen, hi]
      exact decode_count _

/-- Witness for C6: a directory with one decodable image and one corrupt
file, a working sink; every hypothesis discharged there. -/
theorem decode_skip_correct_witness :
    (image_files [⟨"a1.jpg".toList, some ⟨Shape.color 1 2 3, [0], 0⟩⟩,
        ⟨"a2.jpg".toList, none⟩] ≠ []) ∧
    ((decodeAll (pySort entryLe (image_files [⟨"a1.jpg".toList, some ⟨Shape.color 1 2 3, [0], 0⟩⟩,
          ⟨"a2.jpg".toList, none⟩]))).1
        = ((pySort entryLe (image_files [⟨"a1.jpg".toList, some ⟨Shape.color 1 2 3, [0], 0⟩⟩,
            ⟨"a2.jpg".toList, none⟩])).filter (fun f => f.decoded.isNone)).map
            FileEntry.name) ∧
    ((images_to_video [⟨"a1.jpg".toList, some ⟨Shape.color 1 2 3, [0], 0⟩⟩,
          ⟨"a2.jpg".toList, none⟩] ⟨true, fun _ => true⟩ 4).1
        = Except.error Err.noDecodableImages ↔
      ∀ f ∈ pySort entryLe (image_files [⟨"a1.jpg".toList, some ⟨Shape.color 1 2 3, [0], 0⟩⟩,
          ⟨"a2.jpg".toList, none⟩]), f.decoded = none) ∧
    ((SinkBehavior.openOk ⟨true, fun _ => true⟩) = true →
      (∀ i, (SinkBehavior.writeOk ⟨true, fun _ => true⟩) i = true) →
      (¬ ∀ f ∈ pySort entryLe (image_files [⟨"a1.jpg".toList, some ⟨Shape.color 1 2 3, [0], 0⟩⟩,
          ⟨"a2.jpg".toList, none⟩]), f.decoded = none) →
      (images_to_video [⟨"a1.jpg".toList, some ⟨Shape.color 1 2 3, [0], 0⟩⟩,
          ⟨"a2.jpg".toList, none⟩] ⟨true, fun _ => true⟩ 4).1 = Except.ok () ∧
      ∃ out size,
        resize (decodeAll (pySort entryLe
            (image_files [⟨"a1.jpg".toList, some ⟨Shape.color 1 2 3, [0], 0⟩⟩,
              ⟨"a2.jpg".toList, none⟩]))).2 "largest" 4 = Except.ok (out, size) ∧
        (images_to_video [⟨"a1.jpg".toList, some ⟨Shape.color 1 2 3, [0], 0⟩⟩,
            ⟨"a2.jpg".toList, none⟩] ⟨true, fun _ => true⟩ 4).2.written = out ∧
        out.length = ((pySort entryLe (image_files [⟨"a1.jpg".toList,
            some ⟨Shape.color 1 2 3, [0], 0⟩⟩, ⟨"a2.jpg".toList, none⟩])).filter
            (fun f => f.decoded.isSome)).length) := by
  have h := decode_skip_correct
    [⟨"a1.jpg".toList, some ⟨Shape.color 1 2 3, [0], 0⟩⟩, ⟨"a2.jpg".toList, none⟩]
    ⟨true, fun _ => true⟩ 4 (by decide)
  exact ⟨by decide, h.1, h.2.1, h.2.2⟩
